import Mathlib

/-!
Verification development for the caddy-defender middleware.

The Go sources are embedded shallowly: machine integers become Nat (with
explicit bounds where relevant), IP addresses become an inductive over their
numeric value, stateful methods become explicit state passing, and fallible
functions return Option or Except.  The embedding covers:

* matchers/ip/ip.go              (IPChecker, buildTable, insertCIDR)
* ranges/fetchers/file.go        (FileFetcher)
* api.go                         (dynamicBlocklist, persisting variant)
* the admin blocklist handlers   (handleAddToBlocklist / handleBlocklistItem)
* the tarpit responder           (Responder.ServeHTTP streaming loop, Validate)

together with the relevant parts of Go's net / net-netip textual parsers
(ParseIP, ParseCIDR, ParseAddr, ParsePrefix) that the code calls.
-/

/-! ## Addresses and CIDR prefixes (net/netip model)

A netip.Addr is either a 4-byte IPv4 address or a 16-byte IPv6 address.
IPv4-mapped IPv6 addresses (obtained e.g. from a 16-byte slice) are v6
values; netip does not unmap them, and neither does the bart routing table,
which keeps separate v4 and v6 tries.  We represent an address by its
numeric value. -/

inductive Addr where
  | v4 (val : Nat)
  | v6 (val : Nat)
deriving DecidableEq, Repr

def Addr.val : Addr → Nat
  | .v4 v => v
  | .v6 v => v

def Addr.isV4 : Addr → Bool
  | .v4 _ => true
  | .v6 _ => false

/-- netip.Addr.BitLen: 32 for IPv4, 128 for IPv6 (4-in-6 counts as IPv6). -/
def Addr.width : Addr → Nat
  | .v4 _ => 32
  | .v6 _ => 128

/-- A netip.Prefix: an address together with a bit count. -/
structure Pfx where
  addr : Addr
  bits : Nat
deriving DecidableEq, Repr

/-- Zero the host bits of an address, keeping the top `bits` bits
(netip.Prefix.Masked on the address part). -/
def Addr.maskTo (a : Addr) (bits : Nat) : Addr :=
  match a with
  | .v4 v => .v4 (v / 2 ^ (32 - bits) * 2 ^ (32 - bits))
  | .v6 v => .v6 (v / 2 ^ (128 - bits) * 2 ^ (128 - bits))

/-- netip.Prefix.Masked. -/
def Pfx.masked (p : Pfx) : Pfx :=
  { addr := p.addr.maskTo p.bits, bits := p.bits }

/-- Whether a stored prefix covers an address: the families agree and the top
`bits` bits agree.  This is the containment test of the bart routing table
(a boolean longest-prefix-match membership query). -/
def Pfx.covers (p : Pfx) (a : Addr) : Bool :=
  p.addr.isV4 == a.isV4 &&
    a.val / 2 ^ (a.width - p.bits) == p.addr.val / 2 ^ (p.addr.width - p.bits)

/-- The bart.Table of matchers/ip/ip.go, as the set of inserted prefixes. -/
abbrev MatchTable := List Pfx

/-- bart.Table.Contains: some stored prefix covers the address. -/
def tableContains (t : MatchTable) (a : Addr) : Bool :=
  t.any fun p => p.covers a

/-! ## Textual parsing (Go net / net-netip)

The middleware and the matchers parse addresses and CIDRs from strings via
net.ParseIP, net.ParseCIDR (ranges/fetchers/file.go validateIPOrCIDR) and
netip.ParsePrefix (matchers/ip/ip.go insertCIDR).  The parsers below follow
the Go implementations. -/

/-- One dotted-decimal IPv4 field: 1 to 3 digits, value at most 255, no
leading zero (netip parseIPv4Fields). Returns the value and the rest. -/
def parseV4Field (cs : List Char) : Option (Nat × List Char) :=
  let ds := cs.takeWhile fun c => c.isDigit
  let rest := cs.drop ds.length
  if ds.length = 0 ∨ ds.length > 3 then none
  else if ds.length > 1 ∧ ds.headD ' ' = '0' then none
  else
    let v := ds.foldl (fun a c => a * 10 + (c.toNat - 48)) 0
    if v ≤ 255 then some (v, rest) else none

/-- netip parseIPv4: exactly four fields separated by dots, nothing left. -/
def parseIPv4 (cs : List Char) : Option Nat := do
  let (a, r1) ← parseV4Field cs
  match r1 with
  | '.' :: r1' =>
    let (b, r2) ← parseV4Field r1'
    match r2 with
    | '.' :: r2' =>
      let (c, r3) ← parseV4Field r2'
      match r3 with
      | '.' :: r3' =>
        let (d, r4) ← parseV4Field r3'
        if r4.isEmpty then pure (((a * 256 + b) * 256 + c) * 256 + d) else none
      | _ => none
    | _ => none
  | _ => none

def hexVal (c : Char) : Option Nat :=
  if c.isDigit then some (c.toNat - 48)
  else if 'a' ≤ c ∧ c ≤ 'f' then some (10 + c.toNat - 'a'.toNat)
  else if 'A' ≤ c ∧ c ≤ 'F' then some (10 + c.toNat - 'A'.toNat)
  else none

/-- One IPv6 group: 1 to 4 hex digits.  Returns the value and the rest. -/
def parseHexGroup (cs : List Char) : Option (Nat × List Char) :=
  let ds := cs.takeWhile fun c => (hexVal c).isSome
  if ds.length = 0 ∨ ds.length > 4 then none
  else some (ds.foldl (fun a c => a * 16 + (hexVal c).getD 0) 0, cs.drop ds.length)

def ipv4Groups (v : Nat) : List Nat := [v / 65536, v % 65536]

def combineGroups (gs : List Nat) : Nat :=
  gs.foldl (fun a g => a * 65536 + g) 0

/-- Main loop of netip parseIPv6: collects 16-bit groups, records the
position of a single "::" ellipsis, and accepts a trailing embedded IPv4
(which fills the final two groups).  The fuel bounds the at most eight
iterations. -/
def parseIPv6Loop : Nat → List Char → List Nat → Option Nat → Option (List Nat × Option Nat)
  | 0, _, _, _ => none
  | fuel + 1, cs, groups, ell =>
    match parseHexGroup cs with
    | none => none
    | some (val, rest) =>
      if rest.headD ' ' = '.' then
        -- embedded IPv4 must replace the final two fields of the address
        let i := groups.length * 2
        if (ell.isNone ∧ i ≠ 12) ∨ i + 4 > 16 then none
        else
          match parseIPv4 cs with
          | none => none
          | some v => some (groups ++ ipv4Groups v, ell)
      else
        let groups' := groups ++ [val]
        match rest with
        | [] => some (groups', ell)
        | ':' :: [] => none
        | ':' :: ':' :: rest2 =>
          if ell.isSome then none
          else if rest2.isEmpty then some (groups', some groups'.length)
          else if groups'.length * 2 ≥ 16 then none
          else parseIPv6Loop fuel rest2 groups' (some groups'.length)
        | ':' :: rest2 =>
          if groups'.length * 2 ≥ 16 then none
          else parseIPv6Loop fuel rest2 groups' ell
        | _ => none

/-- Expand the ellipsis to the missing zero groups and combine. -/
def finishIPv6 (st : List Nat × Option Nat) : Option Nat :=
  let groups := st.1
  if groups.length = 8 then
    if st.2.isSome then none else some (combineGroups groups)
  else if groups.length > 8 then none
  else
    match st.2 with
    | none => none
    | some k =>
      some (combineGroups (groups.take k ++ List.replicate (8 - groups.length) 0 ++ groups.drop k))

/-- netip parseIPv6 (zones rejected; a zone makes net.ParseIP fail too). -/
def parseIPv6 (cs : List Char) : Option Nat :=
  match cs with
  | ':' :: ':' :: rest =>
    if rest.isEmpty then some 0
    else do finishIPv6 (← parseIPv6Loop 10 rest [] (some 0))
  | _ => do finishIPv6 (← parseIPv6Loop 10 cs [] none)

/-- netip.ParseAddr's dispatch: the first special character decides the
family ('.' means IPv4, ':' means IPv6, '%' is a malformed zone). -/
def classifyAddr : List Char → Option Bool
  | [] => none
  | c :: rest =>
    if c = '.' then some true
    else if c = ':' then some false
    else if c = '%' then none
    else classifyAddr rest

/-- netip.ParseAddr. -/
def parseAddrL (cs : List Char) : Option Addr :=
  match classifyAddr cs with
  | some true => (parseIPv4 cs).map Addr.v4
  | some false => (parseIPv6 cs).map Addr.v6
  | none => none

def parseAddr (s : String) : Option Addr := parseAddrL s.toList

/-- Split at the last occurrence of a separator. -/
def splitLastChar (sep : Char) (cs : List Char) : Option (List Char × List Char) :=
  let tail := cs.reverse.takeWhile fun c => c ≠ sep
  if tail.length = cs.length then none
  else some (cs.take (cs.length - tail.length - 1), tail.reverse)

/-- Split at the first occurrence of a separator. -/
def splitFirstChar (sep : Char) (cs : List Char) : Option (List Char × List Char) :=
  let front := cs.takeWhile fun c => c ≠ sep
  if front.length = cs.length then none
  else some (front, cs.drop (front.length + 1))

/-- The bit-count suffix of netip.ParsePrefix: decimal, at most three digits,
no leading zeros, at most the address bit length. -/
def parseMaskBits (cs : List Char) (maxBits : Nat) : Option Nat :=
  if cs.length = 0 ∨ cs.length > 3 then none
  else if cs.any (fun c => ¬ c.isDigit) then none
  else if cs.length > 1 ∧ cs.headD ' ' = '0' then none
  else
    let v := cs.foldl (fun a c => a * 10 + (c.toNat - 48)) 0
    if v ≤ maxBits then some v else none

/-- netip.ParsePrefix: split at the last slash, parse the address, parse the
bit count, require it within the address bit length.  A bare address (no
slash) is an error. -/
def parsePfx (s : String) : Option Pfx :=
  match splitLastChar '/' s.toList with
  | none => none
  | some (a, m) => do
    let ip ← parseAddrL a
    let bits ← parseMaskBits m ip.width
    pure { addr := ip, bits := bits }

/-- Go's dtoi as used by net.ParseCIDR for the mask: all of the input must be
decimal digits (leading zeros allowed) and fit below the overflow bound. -/
def dtoiAll (cs : List Char) : Option Nat :=
  if cs.length = 0 ∨ cs.any (fun c => ¬ c.isDigit) then none
  else
    let v := cs.foldl (fun a c => a * 10 + (c.toNat - 48)) 0
    if v < 16777216 then some v else none

/-- net.ParseCIDR: split at the first slash, parse the address, parse the
mask, require the mask within the address bit length.  Returns the parsed
pair (the Go function also returns the masked network; callers here only
test success). -/
def parseCIDRNet (s : String) : Option (Addr × Nat) :=
  match splitFirstChar '/' s.toList with
  | none => none
  | some (a, m) => do
    let ip ← parseAddrL a
    let n ← dtoiAll m
    if n ≤ ip.width then pure (ip, n) else none

/-- net.ParseIP (nil on failure, non-nil on success; zones rejected). -/
def parseIPNet (s : String) : Option Addr := parseAddrL s.toList

/-! ## matchers/ip/ip.go : insertCIDR and buildTable -/

/-- The IPv4-mapped IPv6 form of an IPv4 value: bytes 0..0 ff ff a b c d. -/
def v4MappedVal (v : Nat) : Nat := 0xffff * 2 ^ 32 + v

/-- The IPv4-mapped IPv6 companion prefix inserted by insertCIDR: address
::ffff:a.b.c.d, bit count 96 + n. -/
def v4MappedPfx (p : Pfx) : Pfx :=
  { addr := Addr.v6 (v4MappedVal p.addr.val), bits := 96 + p.bits }

/-- The prefixes insertCIDR adds for one CIDR string: nothing when the parse
fails (the error is logged by the caller), otherwise the masked original and,
for an IPv4 prefix, the masked IPv4-mapped IPv6 companion. -/
def insertedPfxs (s : String) : List Pfx :=
  match parsePfx s with
  | none => []
  | some p =>
    if p.addr.isV4 then [p.masked, (v4MappedPfx p).masked]
    else [p.masked]

/-- insertCIDR: returns the grown table and whether the CIDR parsed
(`false` models the returned error). -/
def insertCIDR (t : MatchTable) (cidr : String) : MatchTable × Bool :=
  match parsePfx cidr with
  | none => (t, false)
  | some _ => (t ++ insertedPfxs cidr, true)

/-- The predefined bundle map data.IPRanges (a generated constant), kept as a
parameter of the table builder: an association list from bundle name to its
member CIDRs. -/
abbrev Bundles := List (String × List String)

def bundleLookup (bs : Bundles) (k : String) : Option (List String) :=
  (bs.find? fun e => e.1 == k).map (·.2)

/-- buildTable: for each entry, a predefined bundle key expands to its member
CIDRs (each inserted via insertCIDR), and any other entry is inserted as a
CIDR itself; parse failures are logged and skipped. -/
def buildTable (bs : Bundles) (cidrRanges : List String) : MatchTable :=
  cidrRanges.foldl
    (fun t cidr =>
      match bundleLookup bs cidr with
      | some ranges => ranges.foldl (fun t' c => (insertCIDR t' c).1) t
      | none => (insertCIDR t cidr).1)
    []

/-! ## matchers/ip/ip.go : IPChecker

The sturdyc decision cache maps the normalized string form of an address to
the cached answer; netip.Addr.String is injective on addresses (IPv4,
IPv4-mapped IPv6 and other IPv6 values all render distinctly), so the cache
is keyed here by the address itself.  With WithMissingRecordStorage, a fetch
returning ("false", ErrNotFound) stores a missing-record marker and later
hits for that key again yield a non-"true" result, so a cache entry behaves
exactly like a stored boolean.

The whitelist (matchers/whitelist, not part of the embedded sources) is kept
as an opaque predicate: the field stands for `whitelist.Matches`. -/

structure IPChecker where
  table : MatchTable
  cache : List (Addr × Bool)
  whitelist : Addr → Bool

/-- Fresh sturdyc cache. -/
def freshCache : List (Addr × Bool) := []

/-- NewIPChecker (the whitelist initialisation is abstracted into the
predicate argument). -/
def newIPChecker (bs : Bundles) (cidrRanges : List String) (wl : Addr → Bool) : IPChecker :=
  { table := buildTable bs cidrRanges, cache := freshCache, whitelist := wl }

def cacheGet (cache : List (Addr × Bool)) (a : Addr) : Option Bool :=
  (cache.find? fun e => e.1 == a).map (·.2)

/-- IPChecker.IPInRanges: answer from the cache when present, otherwise
consult the table and populate the cache.  Returns the answer and the
checker with its updated cache. -/
def ipInRanges (c : IPChecker) (a : Addr) : Bool × IPChecker :=
  match cacheGet c.cache a with
  | some b => (b, c)
  | none =>
    let b := tableContains c.table a
    (b, { c with cache := (a, b) :: c.cache })

/-- IPChecker.ReqAllowed: an unparsable client IP (`none`, modelling a nil or
invalid net.IP) is denied; a whitelisted address is allowed regardless of the
blocklist; otherwise the request is allowed iff the address is not in the
blocked ranges. -/
def reqAllowed (c : IPChecker) (clientIP : Option Addr) : Bool × IPChecker :=
  match clientIP with
  | none => (false, c)
  | some a =>
    if c.whitelist a then (true, c)
    else
      let r := ipInRanges c a
      (!r.1, r.2)

/-- IPChecker.UpdateRanges: rebuild the table from the new ranges and replace
the decision cache wholesale with a freshly created cache (sturdyc has no
clear-all, so the reference is swapped, not cleared in place). -/
def updateRanges (bs : Bundles) (c : IPChecker) (cidrRanges : List String) : IPChecker :=
  { table := buildTable bs cidrRanges, cache := freshCache, whitelist := c.whitelist }

/-- Run a sequence of IPInRanges lookups, threading the cache. -/
def runLookups (c : IPChecker) : List Addr → List Bool × IPChecker
  | [] => ([], c)
  | a :: rest =>
    let r := ipInRanges c a
    let rr := runLookups r.2 rest
    (r.1 :: rr.1, rr.2)

/-- Every cache entry agrees with the current table (decidably stated over
the finite cache). -/
def cacheCoherent (c : IPChecker) : Bool :=
  c.cache.all fun e => e.2 == tableContains c.table e.1

/-! ## api.go : dynamicBlocklist (file-persisting variant)

The in-memory set is a Go map keyed by CIDR string; it is modelled as a
duplicate-free list.  saveToFile is modelled by a success flag: the write
either succeeds or fails, and the failure is surfaced as the returned
error while the in-memory mutation stays applied. -/

def insertIPStr (ips : List String) (ip : String) : List String :=
  if ips.contains ip then ips else ips ++ [ip]

/-- The in-memory effect of dynamicBlocklist.Add (each IP keyed true). -/
def dynAddMem (ips : List String) (new : List String) : List String :=
  new.foldl insertIPStr ips

/-- The in-memory effect of dynamicBlocklist.Remove: delete when present,
reporting whether the key existed. -/
def dynRemoveMem (ips : List String) (ip : String) : List String × Bool :=
  if ips.contains ip then (ips.filter fun x => x ≠ ip, true) else (ips, false)

/-- dynamicBlocklist.Add: mutate the set, then persist; a persistence
failure (persistOk = false) is returned as an error but the set keeps the
mutation.  Result: (new set, error?). -/
def dynAdd (ips : List String) (persistOk : Bool) (new : List String) :
    List String × Bool :=
  (dynAddMem ips new, !persistOk)

/-- dynamicBlocklist.Remove: (new set, removed, error?). When the key is
absent nothing is persisted and no error is possible. -/
def dynRemove (ips : List String) (persistOk : Bool) (ip : String) :
    List String × Bool × Bool :=
  if (dynRemoveMem ips ip).2 then ((dynRemoveMem ips ip).1, true, !persistOk)
  else ((dynRemoveMem ips ip).1, false, false)

/-- dynamicBlocklist.List: the keys of the map. -/
def dynList (ips : List String) : List String := ips

/-- An Add or Remove issued against the blocklist. -/
inductive BLOp where
  | add (ips : List String)
  | remove (ip : String)
deriving DecidableEq, Repr

def applyOp (s : List String) : BLOp → List String
  | .add ips => dynAddMem s ips
  | .remove ip => (dynRemoveMem s ip).1

def applyOps (s : List String) (ops : List BLOp) : List String :=
  ops.foldl applyOp s

/-- Number of Add operations whose arguments include the string, minus the
number of Remove operations on it (the count the spec's invariant 3 uses). -/
def opNetCount (ops : List BLOp) (s : String) : Int :=
  ops.foldl
    (fun n op =>
      match op with
      | .add ips => if ips.contains s then n + 1 else n
      | .remove ip => if ip == s then n - 1 else n)
    0

def opMentions (s : String) : BLOp → Bool
  | .add ips => ips.contains s
  | .remove ip => ip == s

def isAddOp : BLOp → Bool
  | .add _ => true
  | .remove _ => false

/-- Whether the last operation mentioning the string is an Add (none when no
operation mentions it). -/
def finalMention (ops : List BLOp) (s : String) : Option Bool :=
  ops.foldl (fun acc op => if opMentions s op then some (isAddOp op) else acc) none

/-! ## ranges/fetchers/file.go : FileFetcher

File contents are modelled as the list of scanned lines (`none` models a
file that cannot be opened).  The fsnotify watcher and its goroutine are
outside the pure model; loadRanges is the pure core of the initial load. -/

/-- Go unicode.IsSpace on the characters that strings.TrimSpace strips
(ASCII space classes plus the two Latin-1 spaces). -/
def isGoSpace (c : Char) : Bool :=
  c = ' ' ∨ c = '\t' ∨ c = '\n' ∨ c = '\x0b' ∨ c = '\x0c' ∨ c = '\r' ∨
    c.toNat = 0x85 ∨ c.toNat = 0xa0

/-- strings.TrimSpace. -/
def goTrimSpace (s : String) : String :=
  let cs := s.toList.dropWhile isGoSpace
  String.mk (cs.reverse.dropWhile isGoSpace).reverse

/-- strings.HasPrefix on character lists (String.startsWith does not reduce
in the kernel, so the comment test is modelled directly). -/
def goHasPrefixOf (p s : List Char) : Bool :=
  match p, s with
  | [], _ => true
  | _ :: _, [] => false
  | a :: ps, b :: ss => a == b && goHasPrefixOf ps ss

/-- FileFetcher.validateIPOrCIDR: valid when net.ParseCIDR succeeds or
net.ParseIP succeeds. -/
def validateIPOrCIDR (s : String) : Bool :=
  (parseCIDRNet s).isSome || (parseIPNet s).isSome

/-- Whether a raw file line survives loadRanges: after trimming it is
neither empty nor a '#' comment, and it validates as an IP or CIDR. -/
def usableLine (raw : String) : Bool :=
  let line := goTrimSpace raw
  (!(line == "" || goHasPrefixOf ['#'] line.toList)) && validateIPOrCIDR line

/-- FileFetcher.loadRanges on scanned lines: trim each line, skip blanks and
comments, log-and-skip invalid entries, keep the valid ones. -/
def loadRanges (lines : List String) : List String :=
  lines.foldr
    (fun raw acc =>
      let line := goTrimSpace raw
      if line == "" || goHasPrefixOf ['#'] line.toList then acc
      else if validateIPOrCIDR line then line :: acc
      else acc)
    []

structure FileFetcher where
  filePath : String
  ranges : List String
deriving DecidableEq, Repr

inductive FetchErr where
  | emptyPath
  | openFailed
  | emptyBlocklist
deriving DecidableEq, Repr

/-- NewFileFetcher: an empty path or an unreadable file fails construction;
otherwise the initial load runs and construction succeeds whatever the
loaded list looks like (the watcher start is abstracted away). -/
def newFileFetcher (filePath : String) (contents : Option (List String)) :
    Except FetchErr FileFetcher :=
  if filePath = "" then .error .emptyPath
  else
    match contents with
    | none => .error .openFailed
    | some lines => .ok { filePath := filePath, ranges := loadRanges lines }

/-- FileFetcher.FetchIPRanges: an empty loaded list is the EmptyBlocklist
error; otherwise a copy of the ranges is returned. -/
def fetchIPRanges (f : FileFetcher) : Except FetchErr (List String) :=
  if f.ranges.length = 0 then .error .emptyBlocklist else .ok f.ranges

/-! ## Admin blocklist handlers (DefenderAdmin, persisting variant)

The handler state carries the pieces of the Defender instance the handlers
touch.  checkerRanges records the argument of the last ipChecker.UpdateRanges
call; the third component of a handler's result tells whether UpdateRanges
was invoked during the request. -/

structure DefenderSt where
  ranges : List String          -- m.Ranges (static config entries)
  blocklistFile : String        -- m.BlocklistFile ("" when unset)
  fileRanges : List String      -- what m.fileFetcher.FetchIPRanges returns
  dynamic : List String         -- m.dynamicBlocklist contents
  persistOk : Bool              -- whether saveToFile succeeds
  checkerRanges : List String   -- argument of the last UpdateRanges call
deriving DecidableEq, Repr

inductive ApiResp where
  | created (added : List String)
  | removedOk (ip : String)
  | apiError (status : Nat)
deriving DecidableEq, Repr

/-- DefenderAdmin.handleAddToBlocklist: decode the body (`none` is invalid
JSON), reject an empty list, reject entries without a '/', mutate the
dynamic blocklist, and return 500 when persistence failed -- in that case
UpdateRanges is not reached.  On success the checker is rebuilt from the
static ranges plus either the file ranges (when a blocklist file is
configured) or the dynamic list. -/
def handleAddToBlocklist (st : DefenderSt) (body : Option (List String)) :
    ApiResp × DefenderSt × Bool :=
  match body with
  | none => (.apiError 400, st, false)
  | some ips =>
    if ips.isEmpty then (.apiError 400, st, false)
    else if ips.any (fun ip => ! ip.toList.contains '/') then (.apiError 400, st, false)
    else if (dynAdd st.dynamic st.persistOk ips).2 then
      (.apiError 500, { st with dynamic := (dynAdd st.dynamic st.persistOk ips).1 }, false)
    else
      (.created ips,
        { st with
          dynamic := (dynAdd st.dynamic st.persistOk ips).1,
          checkerRanges := st.ranges ++
            (if st.blocklistFile ≠ "" then st.fileRanges
             else dynList (dynAdd st.dynamic st.persistOk ips).1) },
        true)

/-- DefenderAdmin.handleBlocklistItem (DELETE): remove one CIDR.  A
persistence failure after a successful in-memory removal returns 500 without
reaching UpdateRanges; an absent CIDR is 404. -/
def handleRemoveFromBlocklist (st : DefenderSt) (ip : String) :
    ApiResp × DefenderSt × Bool :=
  if ip = "" then (.apiError 400, st, false)
  else if (dynRemove st.dynamic st.persistOk ip).2.2 then
    (.apiError 500, { st with dynamic := (dynRemove st.dynamic st.persistOk ip).1 }, false)
  else if ! (dynRemove st.dynamic st.persistOk ip).2.1 then (.apiError 404, st, false)
  else
    (.removedOk ip,
      { st with
        dynamic := (dynRemove st.dynamic st.persistOk ip).1,
        checkerRanges := st.ranges ++
          (if st.blocklistFile ≠ "" then st.fileRanges
           else dynList (dynRemove st.dynamic st.persistOk ip).1) },
      true)

/-! ## Tarpit responder (Responder.ServeHTTP and Validate)

Durations and byte rates are Go ints.  The streaming select loop is driven
by a script of scheduler events: each 100 ms ticker tick carries the request
context's cancellation state, the outcome of the content read for that tick
and whether the response write succeeds; a timeoutFires event is the overall
timeout channel firing.  The result mirrors Go's returns: `some none` is
`return nil`, `some (some e)` is `return e`, and `none` means the script
ended with the loop still running. -/

structure TarpitConfig where
  timeout : Int          -- nanoseconds (time.Duration)
  bytesPerSecond : Int
  responseCode : Nat
deriving DecidableEq, Repr

/-- Responder.Validate. -/
def tarpitValidate (cfg : TarpitConfig) : Except String Unit :=
  if cfg.timeout ≤ 0 then .error "tarpit timeout must be greater than 0"
  else if cfg.bytesPerSecond ≤ 10 then .error "tarpit bytes per second must be greater than 10"
  else .ok ()

/-- The ticker period of the streaming loop, in milliseconds. -/
def tickerIntervalMs : Nat := 100

/-- The chunk buffer length: bytes_per_second / 10 with Go's truncating
integer division. -/
def chunkLen (cfg : TarpitConfig) : Int := Int.tdiv cfg.bytesPerSecond 10

inductive ReadRes where
  | data (n : Nat)     -- n bytes read, no error
  | eofRes             -- io.EOF
  | errRes             -- a non-EOF read error
deriving DecidableEq, Repr

inductive TickEvent where
  | tick (ctxCancelled : Bool) (r : ReadRes) (writeOk : Bool)
  | timeoutFires
deriving DecidableEq, Repr

inductive GoErr where
  | readErr
  | writeErr
deriving DecidableEq, Repr

/-- The select loop of Responder.ServeHTTP, one case per event: the overall
timeout returns nil; a tick first checks context cancellation (return nil),
then reads (EOF returns nil, a read error is returned to the caller), then
writes and flushes when bytes arrived (a write error is returned). -/
def tarpitLoop : List TickEvent → Option (Option GoErr)
  | [] => none
  | .timeoutFires :: _ => some none
  | .tick cancelled r wOk :: rest =>
    if cancelled then some none
    else
      match r with
      | .eofRes => some none
      | .errRes => some (some .readErr)
      | .data n =>
        if n > 0 ∧ ¬ wOk then some (some .writeErr)
        else tarpitLoop rest

/-- The bytes successfully written by the loop while it runs. -/
def tarpitLoopWritten : List TickEvent → Nat
  | [] => 0
  | .timeoutFires :: _ => 0
  | .tick cancelled r wOk :: rest =>
    if cancelled then 0
    else
      match r with
      | .eofRes => 0
      | .errRes => 0
      | .data n => if n > 0 ∧ ¬ wOk then 0 else n + tarpitLoopWritten rest

/-- Each tick reads into the chunk buffer, so it can deliver at most
chunkLen bytes. -/
def eventsFitChunk (cfg : TarpitConfig) (events : List TickEvent) : Bool :=
  events.all fun ev =>
    match ev with
    | .tick _ (.data n) _ => n ≤ (chunkLen cfg).toNat
    | _ => true

/-- Outcome of the pre-loop phase: the 512-byte content-type sniff read and
the first write. -/
inductive SniffRes where
  | sniffErr                          -- non-EOF error: 500 via http.Error, return nil
  | content (n : Nat) (writeOk : Bool)  -- n bytes sniffed (0 on immediate EOF)
deriving DecidableEq, Repr

/-- Responder.ServeHTTP after the content reader opened: sniff errors take
the 500 path and return nil; a failed first write is returned; otherwise the
streaming loop runs. -/
def serveTarpit (sniff : SniffRes) (events : List TickEvent) : Option (Option GoErr) :=
  match sniff with
  | .sniffErr => some none
  | .content n wOk =>
    if n > 0 ∧ ¬ wOk then some (some .writeErr)
    else tarpitLoop events

/-- The exit classification the specification describes, read directly off
the event script: the first terminating condition among timeout, client
disconnect, EOF, read failure and write failure. -/
inductive ExitCause where
  | eofExit
  | clientGone
  | timedOut
  | readFailed
  | writeFailed
deriving DecidableEq, Repr

def firstExitCause : List TickEvent → Option ExitCause
  | [] => none
  | .timeoutFires :: _ => some .timedOut
  | .tick cancelled r wOk :: rest =>
    if cancelled then some .clientGone
    else
      match r with
      | .eofRes => some .eofExit
      | .errRes => some .readFailed
      | .data n => if n > 0 ∧ ¬ wOk then some .writeFailed else firstExitCause rest

/-- The prefixes one buildTable entry contributes: a predefined bundle key
contributes its members' insertions (the key string itself is never handed
to insertCIDR), any other entry contributes its own insertion. -/
def entryPfxs (bs : Bundles) (e : String) : List Pfx :=
  match bundleLookup bs e with
  | some ranges => ranges.flatMap insertedPfxs
  | none => insertedPfxs e

/-- The Go return value produced at each spec-level exit cause: timeout,
client disconnect and EOF return nil; read and write failures return the
error. -/
def causeToErr : ExitCause → Option GoErr
  | .eofExit => none
  | .clientGone => none
  | .timedOut => none
  | .readFailed => some .readErr
  | .writeFailed => some .writeErr

/-! ## Supporting lemmas -/

lemma maskTo_keeps_family (a : Addr) (bits : Nat) : (a.maskTo bits).isV4 = a.isV4 := by
  cases a <;> rfl

lemma maskTo_width (a : Addr) (bits : Nat) : (a.maskTo bits).width = a.width := by
  cases a <;> rfl

lemma maskTo_val_div (a : Addr) (bits : Nat) :
    (a.maskTo bits).val / 2 ^ (a.width - bits) = a.val / 2 ^ (a.width - bits) := by
  cases a <;>
    simp only [Addr.maskTo, Addr.val, Addr.width] <;>
    exact Nat.mul_div_cancel _ (Nat.pow_pos (by norm_num))

/-- Masking a prefix does not change which addresses it covers. -/
lemma covers_masked (p : Pfx) (a : Addr) : p.masked.covers a = p.covers a := by
  unfold Pfx.covers Pfx.masked
  simp only [maskTo_keeps_family, maskTo_width, maskTo_val_div]

lemma insertCIDR_fst (t : MatchTable) (s : String) :
    (insertCIDR t s).1 = t ++ insertedPfxs s := by
  unfold insertCIDR insertedPfxs
  cases parsePfx s <;> simp

lemma foldl_insertCIDR (ranges : List String) (t : MatchTable) :
    ranges.foldl (fun t' c => (insertCIDR t' c).1) t = t ++ ranges.flatMap insertedPfxs := by
  induction ranges generalizing t with
  | nil => simp
  | cons r rs ih =>
    rw [List.foldl_cons]
    show List.foldl (fun t' c => (insertCIDR t' c).1) (insertCIDR t r).1 rs = _
    rw [insertCIDR_fst, ih, List.flatMap_cons, List.append_assoc]

lemma buildTable_eq_flatMap (bs : Bundles) (entries : List String) :
    buildTable bs entries = entries.flatMap (entryPfxs bs) := by
  unfold buildTable
  suffices h : ∀ t : MatchTable,
      entries.foldl
        (fun t cidr =>
          match bundleLookup bs cidr with
          | some ranges => ranges.foldl (fun t' c => (insertCIDR t' c).1) t
          | none => (insertCIDR t cidr).1)
        t = t ++ entries.flatMap (entryPfxs bs) by
    simpa using h []
  induction entries with
  | nil => intro t; simp
  | cons e es ih =>
    intro t
    rw [List.foldl_cons, List.flatMap_cons]
    cases h : bundleLookup bs e with
    | none =>
      simp only [h]
      rw [insertCIDR_fst, ih, List.append_assoc]
      have he : entryPfxs bs e = insertedPfxs e := by simp [entryPfxs, h]
      rw [he]
    | some ranges =>
      simp only [h]
      rw [foldl_insertCIDR, ih, List.append_assoc]
      have he : entryPfxs bs e = ranges.flatMap insertedPfxs := by simp [entryPfxs, h]
      rw [he]

lemma cacheGet_coherent {c : IPChecker} (h : cacheCoherent c = true) {a : Addr} {b : Bool}
    (hget : cacheGet c.cache a = some b) : b = tableContains c.table a := by
  unfold cacheGet at hget
  cases hfind : c.cache.find? (fun e => e.1 == a) with
  | none => rw [hfind] at hget; simp at hget
  | some e =>
    rw [hfind] at hget
    have hb : e.2 = b := by simpa using hget
    have hmem : e ∈ c.cache := List.mem_of_find?_eq_some hfind
    have hkey : e.1 = a := by simpa using List.find?_some hfind
    have hall : (e.2 == tableContains c.table e.1) = true :=
      (List.all_eq_true.mp h) e hmem
    have he : e.2 = tableContains c.table e.1 := by simpa using hall
    rw [← hb, he, hkey]

lemma ipInRanges_fst {c : IPChecker} (h : cacheCoherent c = true) (a : Addr) :
    (ipInRanges c a).1 = tableContains c.table a := by
  unfold ipInRanges
  cases hget : cacheGet c.cache a with
  | none => simp
  | some b => simpa using cacheGet_coherent h hget

lemma ipInRanges_snd_table (c : IPChecker) (a : Addr) :
    (ipInRanges c a).2.table = c.table := by
  unfold ipInRanges
  cases cacheGet c.cache a <;> rfl

lemma ipInRanges_snd_whitelist (c : IPChecker) (a : Addr) :
    (ipInRanges c a).2.whitelist = c.whitelist := by
  unfold ipInRanges
  cases cacheGet c.cache a <;> rfl

lemma ipInRanges_snd_coherent {c : IPChecker} (h : cacheCoherent c = true) (a : Addr) :
    cacheCoherent (ipInRanges c a).2 = true := by
  unfold ipInRanges
  cases hget : cacheGet c.cache a with
  | some b => exact h
  | none =>
    unfold cacheCoherent at h ⊢
    rw [List.all_cons, Bool.and_eq_true]
    exact ⟨by simp, h⟩

/-- Under a coherent cache, ReqAllowed computes exactly
whitelist-match-or-not-in-table. -/
lemma reqAllowed_fst {c : IPChecker} (h : cacheCoherent c = true) (a : Addr) :
    (reqAllowed c (some a)).1 = (c.whitelist a || ! tableContains c.table a) := by
  unfold reqAllowed
  by_cases hw : c.whitelist a
  · simp [hw]
  · simp only [Bool.not_eq_true] at hw
    simp [hw, ipInRanges_fst h a]

lemma runLookups_spec (qs : List Addr) :
    ∀ c : IPChecker, cacheCoherent c = true →
      (runLookups c qs).1 = qs.map (tableContains c.table)
      ∧ (runLookups c qs).2.table = c.table
      ∧ (runLookups c qs).2.whitelist = c.whitelist
      ∧ cacheCoherent (runLookups c qs).2 = true := by
  induction qs with
  | nil => exact fun c h => ⟨rfl, rfl, rfl, h⟩
  | cons a rest ih =>
    intro c h
    obtain ⟨h1, h2, h3, h4⟩ := ih (ipInRanges c a).2 (ipInRanges_snd_coherent h a)
    refine ⟨?_, ?_, ?_, ?_⟩
    · show (ipInRanges c a).1 :: (runLookups (ipInRanges c a).2 rest).1 = _
      rw [ipInRanges_fst h a, h1, ipInRanges_snd_table, List.map_cons]
    · show (runLookups (ipInRanges c a).2 rest).2.table = _
      rw [h2, ipInRanges_snd_table]
    · show (runLookups (ipInRanges c a).2 rest).2.whitelist = _
      rw [h3, ipInRanges_snd_whitelist]
    · exact h4

lemma beq_add_left (x y z : Nat) : (x + y == x + z) = (y == z) := by
  by_cases h : y = z
  · simp [h]
  · have hne : ¬ (x + y = x + z) := by omega
    simp [h, hne]

/-- Splitting a division of a v4-mapped style value: the high part shifts
down exactly. -/
lemma high_low_div (c a k : Nat) (hk : k ≤ 32) :
    (c * 2 ^ 32 + a) / 2 ^ k = c * 2 ^ (32 - k) + a / 2 ^ k := by
  have h32 : 32 - k + k = 32 := by omega
  have h : c * 2 ^ 32 = c * 2 ^ (32 - k) * 2 ^ k := by
    rw [mul_assoc, ← pow_add, h32]
  rw [h, add_comm, Nat.add_mul_div_right _ _ (Nat.pow_pos (by norm_num)), add_comm]

lemma contains_eq_decide_mem (l : List String) (s : String) :
    l.contains s = decide (s ∈ l) := by
  simp [List.contains, List.elem_eq_mem]

lemma mem_insertIPStr (l : List String) (ip s : String) :
    s ∈ insertIPStr l ip ↔ s ∈ l ∨ s = ip := by
  unfold insertIPStr
  by_cases hc : l.contains ip = true
  · rw [if_pos hc]
    have hmem : ip ∈ l := of_decide_eq_true ((contains_eq_decide_mem l ip) ▸ hc)
    constructor
    · exact Or.inl
    · rintro (hs | rfl)
      · exact hs
      · exact hmem
  · rw [if_neg hc]
    simp [List.mem_append]

lemma mem_dynAddMem (new : List String) : ∀ (l : List String) (s : String),
    s ∈ dynAddMem l new ↔ s ∈ l ∨ s ∈ new := by
  induction new with
  | nil => intro l s; simp [dynAddMem]
  | cons ip rest ih =>
    intro l s
    unfold dynAddMem at ih ⊢
    rw [List.foldl_cons, ih, mem_insertIPStr, List.mem_cons]
    tauto

lemma mem_dynRemoveMemFst (l : List String) (ip s : String) :
    s ∈ (dynRemoveMem l ip).1 ↔ s ∈ l ∧ s ≠ ip := by
  unfold dynRemoveMem
  by_cases hc : l.contains ip = true
  · rw [if_pos hc]
    show s ∈ l.filter (fun x => x ≠ ip) ↔ _
    rw [List.mem_filter]
    constructor
    · rintro ⟨hm, hne⟩
      exact ⟨hm, by simpa using hne⟩
    · rintro ⟨hm, hne⟩
      exact ⟨hm, by simpa using hne⟩
  · rw [if_neg hc]
    have hnm : ip ∉ l := by
      intro hm
      exact hc ((contains_eq_decide_mem l ip).symm ▸ decide_eq_true hm)
    constructor
    · intro hm
      refine ⟨hm, ?_⟩
      rintro rfl
      exact hnm hm
    · exact fun hm => hm.1

lemma applyOp_mem_mention {s0 : List String} {op : BLOp} {s : String}
    (h : opMentions s op = true) : (s ∈ applyOp s0 op) ↔ isAddOp op = true := by
  cases op with
  | add ips =>
    have hmem : s ∈ ips := by
      rw [opMentions, contains_eq_decide_mem] at h
      exact of_decide_eq_true h
    simp [applyOp, mem_dynAddMem, isAddOp, hmem]
  | remove ip =>
    have hip : ip = s := by simpa [opMentions] using h
    subst hip
    simp [applyOp, mem_dynRemoveMemFst, isAddOp]

lemma applyOp_mem_no_mention {s0 : List String} {op : BLOp} {s : String}
    (h : opMentions s op = false) : (s ∈ applyOp s0 op) ↔ s ∈ s0 := by
  cases op with
  | add ips =>
    have hmem : s ∉ ips := by
      rw [opMentions, contains_eq_decide_mem] at h
      exact of_decide_eq_false h
    simp [applyOp, mem_dynAddMem, hmem]
  | remove ip =>
    have hip : ip ≠ s := by simpa [opMentions] using h
    simp only [applyOp, mem_dynRemoveMemFst]
    constructor
    · exact fun hm => hm.1
    · exact fun hm => ⟨hm, fun hs => hip hs.symm⟩

lemma applyOps_mem_general (ops : List BLOp) (s : String) : ∀ s0 : List String,
    (s ∈ applyOps s0 ops ↔
      match finalMention ops s with
      | some b => b = true
      | none => s ∈ s0) := by
  induction ops using List.reverseRecOn with
  | nil => intro s0; simp [applyOps, finalMention]
  | append_singleton ops op ih =>
    intro s0
    have happ : applyOps s0 (ops ++ [op]) = applyOp (applyOps s0 ops) op := by
      unfold applyOps
      rw [List.foldl_append, List.foldl_cons, List.foldl_nil]
    have hfm : finalMention (ops ++ [op]) s
        = (if opMentions s op then some (isAddOp op) else finalMention ops s) := by
      unfold finalMention
      rw [List.foldl_append, List.foldl_cons, List.foldl_nil]
    rw [happ, hfm]
    cases hm : opMentions s op with
    | true =>
      rw [applyOp_mem_mention hm]
      simp
    | false =>
      rw [applyOp_mem_no_mention hm, ih s0]
      simp

lemma v4pfx_not_covers_v6 (v n m : Nat) :
    (Pfx.mk (Addr.v4 v) n).covers (Addr.v6 m) = false := by
  simp [Pfx.covers, Addr.isV4]

lemma v6pfx_not_covers_v4 (v n m : Nat) :
    (Pfx.mk (Addr.v6 v) n).covers (Addr.v4 m) = false := by
  simp [Pfx.covers, Addr.isV4]

lemma v4pfx_covers_v4 (v n a : Nat) :
    (Pfx.mk (Addr.v4 v) n).covers (Addr.v4 a)
      = (a / 2 ^ (32 - n) == v / 2 ^ (32 - n)) := by
  simp [Pfx.covers, Addr.isV4, Addr.val, Addr.width]

lemma v6pfx_covers_v6 (v n a : Nat) :
    (Pfx.mk (Addr.v6 v) n).covers (Addr.v6 a)
      = (a / 2 ^ (128 - n) == v / 2 ^ (128 - n)) := by
  simp [Pfx.covers, Addr.isV4, Addr.val, Addr.width]

lemma buildTable_single (s : String) : buildTable [] [s] = insertedPfxs s := by
  rw [buildTable_eq_flatMap]
  simp [entryPfxs, bundleLookup]

/-! ## Claims -/

/-- Claim C2: inserting an IPv4 prefix a.b.c.d/n into the match table also
inserts the IPv4-mapped IPv6 prefix ::ffff:a.b.c.d/(96+n), so that after
building a table from that single prefix, the lookup of any IPv4 address and
the lookup of its IPv4-mapped IPv6 form give the same answer. -/
theorem v4_prefix_mapped_lookup_agree (s : String) (v n : Nat)
    (hp : parsePfx s = some ⟨Addr.v4 v, n⟩) (hn : n ≤ 32) :
    insertedPfxs s = [(Pfx.mk (Addr.v4 v) n).masked, (v4MappedPfx ⟨Addr.v4 v, n⟩).masked]
    ∧ ∀ a : Nat, a < 2 ^ 32 →
        tableContains (buildTable [] [s]) (Addr.v6 (v4MappedVal a))
          = tableContains (buildTable [] [s]) (Addr.v4 a) := by
  have h1 : insertedPfxs s
      = [(Pfx.mk (Addr.v4 v) n).masked, (v4MappedPfx ⟨Addr.v4 v, n⟩).masked] := by
    unfold insertedPfxs
    rw [hp]
    rfl
  refine ⟨h1, ?_⟩
  intro a _
  rw [buildTable_single, h1]
  have hk : 128 - (96 + n) = 32 - n := by omega
  have hn' : 32 - (32 - n) = n := by omega
  have hmask : (Pfx.mk (Addr.v4 v) n).masked
      = Pfx.mk (Addr.v4 (v / 2 ^ (32 - n) * 2 ^ (32 - n))) n := rfl
  have hmapped : (v4MappedPfx ⟨Addr.v4 v, n⟩).masked
      = Pfx.mk (Addr.v6 ((0xffff * 2 ^ 32 + v) / 2 ^ (32 - n) * 2 ^ (32 - n))) (96 + n) := by
    unfold v4MappedPfx Pfx.masked Addr.maskTo v4MappedVal
    simp [Addr.val, hk]
  rw [hmask, hmapped]
  simp only [tableContains, List.any_cons, List.any_nil, Bool.or_false]
  rw [v4pfx_not_covers_v6, v6pfx_not_covers_v4, v4pfx_covers_v4, v6pfx_covers_v6, hk]
  rw [Nat.mul_div_cancel _ (Nat.pow_pos (by norm_num))]
  rw [Nat.mul_div_cancel _ (Nat.pow_pos (by norm_num))]
  unfold v4MappedVal
  rw [high_low_div _ _ _ (by omega), high_low_div _ _ _ (by omega), hn', beq_add_left]
  simp

/-- Witness for C2 at the prefix 10.0.0.0/8 and the address 10.1.2.3. -/
theorem v4_prefix_mapped_lookup_agree_witness :
    tableContains (buildTable [] ["10.0.0.0/8"]) (Addr.v6 (v4MappedVal 167838211))
      = tableContains (buildTable [] ["10.0.0.0/8"]) (Addr.v4 167838211) :=
  (v4_prefix_mapped_lookup_agree "10.0.0.0/8" 167772160 8 (by decide) (by decide)).2
    167838211 (by norm_num)

/-- Claim C1: under a coherent decision cache, ReqAllowed answers true
exactly when the whitelist matches the address or the table does not contain
it; a whitelist match forces true regardless of the blocklist; and any
address covered by a CIDR of the effective set that is not whitelisted is
denied. -/
theorem reqAllowed_whitelist_or_not_blocked (c : IPChecker) (a : Addr)
    (hcoh : cacheCoherent c = true) :
    (reqAllowed c (some a)).1 = (c.whitelist a || ! tableContains c.table a)
    ∧ (c.whitelist a = true → (reqAllowed c (some a)).1 = true)
    ∧ (∀ (bs : Bundles) (ranges : List String) (s : String) (p : Pfx),
        c.table = buildTable bs ranges → s ∈ ranges → bundleLookup bs s = none →
        parsePfx s = some p → p.covers a = true → c.whitelist a = false →
        (reqAllowed c (some a)).1 = false) := by
  refine ⟨reqAllowed_fst hcoh a, ?_, ?_⟩
  · intro hw
    rw [reqAllowed_fst hcoh a, hw, Bool.true_or]
  · intro bs ranges s p htab hmem hnb hp hcov hw
    have hmask : p.masked ∈ insertedPfxs s := by
      unfold insertedPfxs
      rw [hp]
      cases hiv : p.addr.isV4 <;> simp [hiv]
    have hment : p.masked ∈ buildTable bs ranges := by
      rw [buildTable_eq_flatMap]
      exact List.mem_flatMap.mpr ⟨s, hmem, by simpa [entryPfxs, hnb] using hmask⟩
    have hcont : tableContains c.table a = true := by
      rw [htab]
      exact List.any_eq_true.mpr ⟨p.masked, hment, by rw [covers_masked]; exact hcov⟩
    rw [reqAllowed_fst hcoh a, hw, hcont]
    rfl

/-- Witness for C1: a non-whitelisted address covered by a configured CIDR
is denied by a freshly built checker. -/
theorem reqAllowed_whitelist_or_not_blocked_witness :
    (reqAllowed (newIPChecker [] ["10.0.0.0/8"] (fun _ => false))
        (some (Addr.v4 167838211))).1 = false :=
  (reqAllowed_whitelist_or_not_blocked
      (newIPChecker [] ["10.0.0.0/8"] (fun _ => false)) (Addr.v4 167838211) rfl).2.2
    [] ["10.0.0.0/8"] "10.0.0.0/8" ⟨Addr.v4 167772160, 8⟩
    rfl (by simp) rfl (by decide) (by decide) rfl

/-- Claim C3: UpdateRanges swaps in a table built from the new ranges and
replaces the decision cache wholesale with a fresh one; every lookup that
starts after the update is answered from the new table whatever was cached
against earlier tables, and ReqAllowed after any such lookup sequence
likewise consults only the new table. -/
theorem updateRanges_fresh_cache_lookups (bs : Bundles) (c : IPChecker)
    (S : List String) (qs : List Addr) :
    (updateRanges bs c S).cache = freshCache
    ∧ (runLookups (updateRanges bs c S) qs).1 = qs.map (tableContains (buildTable bs S))
    ∧ ∀ a : Addr,
        (reqAllowed ((runLookups (updateRanges bs c S) qs).2) (some a)).1
          = (c.whitelist a || ! tableContains (buildTable bs S) a) := by
  have hco : cacheCoherent (updateRanges bs c S) = true := rfl
  obtain ⟨h1, h2, h3, h4⟩ := runLookups_spec qs (updateRanges bs c S) hco
  refine ⟨rfl, ?_, ?_⟩
  · rw [h1]
    rfl
  · intro a
    rw [reqAllowed_fst h4 a, h2, h3]
    rfl

/-- Claim C10: buildTable expands a predefined bundle key to exactly its
member CIDRs -- the key string itself never reaches insertCIDR, even when it
would parse as a CIDR -- parses every other entry as a CIDR, and produces
exactly the prefixes inserted for the valid entries. -/
theorem buildTable_bundle_expansion (bs : Bundles) (entries : List String) :
    buildTable bs entries = entries.flatMap (entryPfxs bs)
    ∧ (∀ e ms, bundleLookup bs e = some ms →
        buildTable bs [e] = ms.flatMap insertedPfxs)
    ∧ (∀ e, bundleLookup bs e = none → buildTable bs [e] = insertedPfxs e) := by
  refine ⟨buildTable_eq_flatMap bs entries, ?_, ?_⟩
  · intro e ms h
    rw [buildTable_eq_flatMap]
    simp [entryPfxs, h]
  · intro e h
    rw [buildTable_eq_flatMap]
    simp [entryPfxs, h]

/-- Witness for C10 on a one-bundle map mixing a bundle key with a literal
CIDR. -/
theorem buildTable_bundle_expansion_witness :
    buildTable [("openai", ["1.2.3.0/24", "5.6.0.0/16"])] ["openai", "10.0.0.0/8"]
      = ["openai", "10.0.0.0/8"].flatMap
          (entryPfxs [("openai", ["1.2.3.0/24", "5.6.0.0/16"])])
    ∧ buildTable [("openai", ["1.2.3.0/24", "5.6.0.0/16"])] ["openai"]
      = ["1.2.3.0/24", "5.6.0.0/16"].flatMap insertedPfxs :=
  ⟨(buildTable_bundle_expansion [("openai", ["1.2.3.0/24", "5.6.0.0/16"])]
      ["openai", "10.0.0.0/8"]).1,
   (buildTable_bundle_expansion [("openai", ["1.2.3.0/24", "5.6.0.0/16"])]
      ["openai"]).2.1 "openai" ["1.2.3.0/24", "5.6.0.0/16"] rfl⟩

/-- Claim C4 (amended): after any finite sequence of Add and Remove
operations on a fresh dynamic blocklist, List() contains a CIDR string iff
some operation mentions it and the last operation mentioning that exact
string is an Add.  (The net-count criterion of the original claim is refuted
by the counterexample: Add is idempotent while Remove deletes the single
map key.) -/
theorem dynamicBlocklist_contains_iff_last_add (ops : List BLOp) (s : String) :
    (dynList (applyOps [] ops)).contains s = true ↔ finalMention ops s = some true := by
  show (applyOps [] ops).contains s = true ↔ _
  rw [contains_eq_decide_mem, decide_eq_true_eq, applyOps_mem_general ops s []]
  cases hfm : finalMention ops s with
  | none => simp
  | some b => cases b <;> simp

/-- Counterexample for C4 as stated: Add s, Add s, Remove s has a positive
net count (2 - 1) for s, yet List() no longer contains s. -/
theorem dynamicBlocklist_netcount_counterexample :
    (dynList (applyOps []
        [.add ["10.0.0.0/8"], .add ["10.0.0.0/8"], .remove "10.0.0.0/8"])).contains
      "10.0.0.0/8" = false
    ∧ opNetCount [.add ["10.0.0.0/8"], .add ["10.0.0.0/8"], .remove "10.0.0.0/8"]
        "10.0.0.0/8" = 1
    ∧ (0 : Int) < 1 := by
  decide

lemma dynRemoveMem_snd (l : List String) (ip : String) :
    (dynRemoveMem l ip).2 = l.contains ip := by
  unfold dynRemoveMem
  by_cases hc : l.contains ip = true
  · rw [if_pos hc, hc]
  · rw [if_neg hc]
    exact (Bool.not_eq_true _).mp hc |>.symm

/-- Claim C5 (amended): when file persistence fails, an admin Add or Remove
still takes effect in memory and the 500 persistence error is returned to
the caller, but the handler returns before ipChecker.UpdateRanges, so the
checker is NOT rebuilt on that path (the third result component records
whether UpdateRanges ran). -/
theorem persist_failure_mutates_but_skips_rebuild (st : DefenderSt)
    (ips : List String) (ip : String) (hp : st.persistOk = false) :
    (ips ≠ [] → (∀ i ∈ ips, i.toList.contains '/' = true) →
      handleAddToBlocklist st (some ips)
        = (.apiError 500, { st with dynamic := dynAddMem st.dynamic ips }, false))
    ∧ (st.dynamic.contains ip = true → ip ≠ "" →
      handleRemoveFromBlocklist st ip
        = (.apiError 500, { st with dynamic := (dynRemoveMem st.dynamic ip).1 }, false)) := by
  constructor
  · intro hne hall
    have h1 : ¬ (ips.isEmpty = true) := by
      rw [List.isEmpty_eq_false.mpr hne]
      exact Bool.false_ne_true
    have h2 : ¬ ((ips.any fun i => ! i.toList.contains '/') = true) := by
      rw [List.any_eq_false.mpr]
      · exact Bool.false_ne_true
      · intro i hi
        rw [hall i hi]
        simp
    have hr2 : (dynAdd st.dynamic st.persistOk ips).2 = true := by
      unfold dynAdd
      rw [hp]
      rfl
    have e : handleAddToBlocklist st (some ips)
        = (if ips.isEmpty then ((.apiError 400, st, false) : ApiResp × DefenderSt × Bool)
           else if ips.any (fun i => ! i.toList.contains '/') then (.apiError 400, st, false)
           else if (dynAdd st.dynamic st.persistOk ips).2 then
             (.apiError 500, { st with dynamic := (dynAdd st.dynamic st.persistOk ips).1 },
               false)
           else
             (.created ips,
               { st with
                 dynamic := (dynAdd st.dynamic st.persistOk ips).1,
                 checkerRanges := st.ranges ++
                   (if st.blocklistFile ≠ "" then st.fileRanges
                    else dynList (dynAdd st.dynamic st.persistOk ips).1) },
               true)) := rfl
    rw [e, if_neg h1, if_neg h2, if_pos hr2]
    rfl
  · intro hmem hne
    have hd : (dynRemoveMem st.dynamic ip).2 = true := by
      rw [dynRemoveMem_snd, hmem]
    have hr : (dynRemove st.dynamic st.persistOk ip).2.2 = true := by
      unfold dynRemove
      rw [if_pos hd, hp]
      rfl
    have hfst : (dynRemove st.dynamic st.persistOk ip).1
        = (dynRemoveMem st.dynamic ip).1 := by
      unfold dynRemove
      rw [if_pos hd]
    unfold handleRemoveFromBlocklist
    rw [if_neg hne, if_pos hr, hfst]

/-- Witness for C5: a failed persistence on Add mutates the in-memory set,
returns 500 and does not trigger an UpdateRanges. -/
theorem persist_failure_witness :
    handleAddToBlocklist
        { ranges := [], blocklistFile := "", fileRanges := [],
          dynamic := ["1.2.3.0/24"], persistOk := false, checkerRanges := [] }
        (some ["5.6.7.0/24"])
      = (.apiError 500,
          { ranges := [], blocklistFile := "", fileRanges := [],
            dynamic := ["1.2.3.0/24", "5.6.7.0/24"], persistOk := false,
            checkerRanges := [] },
          false) :=
  ((persist_failure_mutates_but_skips_rebuild
      { ranges := [], blocklistFile := "", fileRanges := [],
        dynamic := ["1.2.3.0/24"], persistOk := false, checkerRanges := [] }
      ["5.6.7.0/24"] "1.2.3.0/24" rfl).1 (by decide) (by decide))

/-- Counterexample for C5 as stated: on the persistence-failure path the
handler's result records that UpdateRanges was never invoked, refuting "the
composer/IPChecker is still notified". -/
theorem persist_failure_no_rebuild_counterexample :
    (handleAddToBlocklist
        { ranges := [], blocklistFile := "", fileRanges := [],
          dynamic := [], persistOk := false, checkerRanges := [] }
        (some ["203.0.113.0/24"])).2.2 = false
    ∧ (handleAddToBlocklist
        { ranges := [], blocklistFile := "", fileRanges := [],
          dynamic := [], persistOk := false, checkerRanges := [] }
        (some ["203.0.113.0/24"])).1 = .apiError 500
    ∧ (handleAddToBlocklist
        { ranges := [], blocklistFile := "", fileRanges := [],
          dynamic := [], persistOk := false, checkerRanges := [] }
        (some ["203.0.113.0/24"])).2.1.dynamic = ["203.0.113.0/24"] := by
  decide

lemma loadRanges_cons (l : String) (ls : List String) :
    loadRanges (l :: ls)
      = (if (goTrimSpace l == "" || goHasPrefixOf ['#'] (goTrimSpace l).toList) = true then
           loadRanges ls
         else if validateIPOrCIDR (goTrimSpace l) = true then goTrimSpace l :: loadRanges ls
         else loadRanges ls) := rfl

lemma loadRanges_nil_of_unusable (lines : List String)
    (h : ∀ l ∈ lines, usableLine l = false) : loadRanges lines = [] := by
  induction lines with
  | nil => rfl
  | cons l ls ih =>
    have hl := h l (List.mem_cons_self l ls)
    have hrest := ih fun x hx => h x (List.mem_cons_of_mem l hx)
    rw [loadRanges_cons, hrest]
    by_cases h1 : (goTrimSpace l == "" || goHasPrefixOf ['#'] (goTrimSpace l).toList) = true
    · rw [if_pos h1]
    · rw [if_neg h1]
      have hc1 : (goTrimSpace l == "" || goHasPrefixOf ['#'] (goTrimSpace l).toList) = false :=
        eq_false_of_ne_true h1
      have hl' : ((!(goTrimSpace l == "" || goHasPrefixOf ['#'] (goTrimSpace l).toList))
          && validateIPOrCIDR (goTrimSpace l)) = false := hl
      rw [hc1] at hl'
      simp only [Bool.not_false, Bool.true_and] at hl'
      rw [hl']
      simp

/-- Claim C6: a watched blocklist file with no usable entries (empty, only
blank and comment lines, or all lines invalid) still constructs its
FileFetcher successfully, and every FetchIPRanges call then fails with the
EmptyBlocklist error instead of returning a list. -/
theorem fileFetcher_empty_blocklist (path : String) (lines : List String)
    (hpath : path ≠ "") (h : ∀ l ∈ lines, usableLine l = false) :
    newFileFetcher path (some lines) = .ok ⟨path, []⟩
    ∧ ∀ f, newFileFetcher path (some lines) = .ok f →
        fetchIPRanges f = .error .emptyBlocklist := by
  have hload : loadRanges lines = [] := loadRanges_nil_of_unusable lines h
  have hnew : newFileFetcher path (some lines) = .ok ⟨path, []⟩ := by
    have e : newFileFetcher path (some lines)
        = (if path = "" then .error .emptyPath
           else .ok ⟨path, loadRanges lines⟩) := rfl
    rw [e, if_neg hpath, hload]
  refine ⟨hnew, ?_⟩
  intro f hf
  rw [hnew] at hf
  have hfe : (⟨path, []⟩ : FileFetcher) = f := by
    injection hf
  rw [← hfe]
  rfl

/-- Witness for C6: a file of comments, blanks and one invalid line. -/
theorem fileFetcher_empty_blocklist_witness :
    fetchIPRanges ⟨"/etc/caddy/blocklist.txt", []⟩ = .error .emptyBlocklist :=
  (fileFetcher_empty_blocklist "/etc/caddy/blocklist.txt"
      ["# comment only", "", "   ", "not-an-ip"] (by decide) (by decide)).2
    ⟨"/etc/caddy/blocklist.txt", []⟩
    (fileFetcher_empty_blocklist "/etc/caddy/blocklist.txt"
      ["# comment only", "", "   ", "not-an-ip"] (by decide) (by decide)).1

/-- Claim C7 (amended): the line 192.168.1.0/33 is rejected by the file
validator; the bare IPv4 literal 10.0.0.1 is accepted by the file validator
and kept by loadRanges, but when the loaded entries reach the matching
engine, insertCIDR fails to parse the slash-less literal and skips it with a
warning, so neither the IPv4 form nor the IPv4-mapped IPv6 form of that
address is matched. -/
theorem bare_ip_line_accepted_but_never_matched :
    validateIPOrCIDR "192.168.1.0/33" = false
    ∧ validateIPOrCIDR "10.0.0.1" = true
    ∧ loadRanges ["192.168.1.0/33", "10.0.0.1"] = ["10.0.0.1"]
    ∧ parsePfx "10.0.0.1" = none
    ∧ insertCIDR [] "10.0.0.1" = ([], false)
    ∧ buildTable [] ["10.0.0.1"] = []
    ∧ tableContains (buildTable [] (loadRanges ["10.0.0.1"])) (Addr.v4 167772161) = false
    ∧ tableContains (buildTable [] (loadRanges ["10.0.0.1"]))
        (Addr.v6 (v4MappedVal 167772161)) = false := by
  decide

/-- Counterexample for C7 as stated: the bare literal passes validation yet
an address exactly equal to it is not matched once the entries are loaded
into the matching engine. -/
theorem bare_ip_line_counterexample :
    validateIPOrCIDR "10.0.0.1" = true
    ∧ ¬ (tableContains (buildTable [] (loadRanges ["10.0.0.1"]))
          (Addr.v4 167772161) = true) := by
  decide

/-- The streaming loop refines the spec's exit classification: the loop's Go
return value is exactly the one prescribed by the first terminating
condition of the event script. -/
lemma tarpitLoop_eq_cause (events : List TickEvent) :
    tarpitLoop events = (firstExitCause events).map causeToErr := by
  induction events with
  | nil => rfl
  | cons ev rest ih =>
    cases ev with
    | timeoutFires => rfl
    | tick cancelled r wOk =>
      show (if cancelled = true then some none
            else match r with
              | .eofRes => some none
              | .errRes => some (some .readErr)
              | .data n =>
                if n > 0 ∧ ¬ wOk = true then some (some .writeErr) else tarpitLoop rest)
          = Option.map causeToErr
            (if cancelled = true then some .clientGone
             else match r with
               | .eofRes => some .eofExit
               | .errRes => some .readFailed
               | .data n =>
                 if n > 0 ∧ ¬ wOk = true then some .writeFailed else firstExitCause rest)
      by_cases hc : cancelled = true
      · rw [if_pos hc, if_pos hc]
        rfl
      · rw [if_neg hc, if_neg hc]
        cases r with
        | eofRes => rfl
        | errRes => rfl
        | data n =>
          show (if n > 0 ∧ ¬ wOk = true then some (some GoErr.writeErr) else tarpitLoop rest)
              = Option.map causeToErr
                (if n > 0 ∧ ¬ wOk = true then some ExitCause.writeFailed
                 else firstExitCause rest)
          by_cases hw : n > 0 ∧ ¬ wOk = true
          · rw [if_pos hw, if_pos hw]
            rfl
          · rw [if_neg hw, if_neg hw]
            exact ih

/-- Claim C8: for every valid tarpit configuration the streaming loop runs
on the 100 ms ticker with a positive chunk buffer of bytes_per_second / 10
bytes; after a successful sniff and first write the served result is the
loop's result, and the loop returns nil exactly when it exits by EOF, client
disconnect or overall timeout, while a content read error in the loop (after
that first successful write) is returned to the caller as an error. -/
theorem tarpit_exit_classification (cfg : TarpitConfig) (n : Nat)
    (events : List TickEvent) (hv : tarpitValidate cfg = .ok ()) :
    tickerIntervalMs = 100
    ∧ 0 < chunkLen cfg
    ∧ serveTarpit (.content n true) events = tarpitLoop events
    ∧ ∀ e, tarpitLoop events = some e →
        ((e = none ↔ (firstExitCause events = some .eofExit
            ∨ firstExitCause events = some .clientGone
            ∨ firstExitCause events = some .timedOut))
        ∧ (e = some .readErr ↔ firstExitCause events = some .readFailed)) := by
  refine ⟨rfl, ?_, ?_, ?_⟩
  · unfold tarpitValidate at hv
    by_cases h1 : cfg.timeout ≤ 0
    · rw [if_pos h1] at hv
      simp at hv
    · rw [if_neg h1] at hv
      by_cases h2 : cfg.bytesPerSecond ≤ 10
      · rw [if_pos h2] at hv
        simp at hv
      · unfold chunkLen
        rw [Int.tdiv_eq_ediv (by omega) (by omega)]
        omega
  · unfold serveTarpit
    simp
  · intro e he
    rw [tarpitLoop_eq_cause] at he
    cases hfc : firstExitCause events with
    | none =>
      rw [hfc] at he
      simp at he
    | some cause =>
      rw [hfc] at he
      have hce : e = causeToErr cause := by
        simpa using he.symm
      subst hce
      cases cause <;> simp [causeToErr]

/-- Witness for C8 with an 11-bytes-per-second configuration and a script
that times out. -/
theorem tarpit_exit_classification_witness :
    serveTarpit (.content 0 true) [TickEvent.timeoutFires]
      = tarpitLoop [TickEvent.timeoutFires] :=
  (tarpit_exit_classification ⟨1, 11, 200⟩ 0 [TickEvent.timeoutFires] rfl).2.2.1

lemma tarpitLoopWritten_le (cfg : TarpitConfig) :
    ∀ events : List TickEvent, eventsFitChunk cfg events = true →
      tarpitLoopWritten events ≤ events.length * (chunkLen cfg).toNat := by
  intro events
  induction events with
  | nil =>
    intro _
    exact Nat.zero_le _
  | cons ev rest ih =>
    intro h
    unfold eventsFitChunk at h ih
    rw [List.all_cons, Bool.and_eq_true] at h
    obtain ⟨hev, hrest⟩ := h
    have hr := ih hrest
    cases ev with
    | timeoutFires =>
      show 0 ≤ (rest.length + 1) * (chunkLen cfg).toNat
      exact Nat.zero_le _
    | tick cancelled r wOk =>
      by_cases hc : cancelled = true
      · show (if cancelled = true then 0 else _) ≤ _
        rw [if_pos hc]
        exact Nat.zero_le _
      · show (if cancelled = true then 0 else _) ≤ _
        rw [if_neg hc]
        cases r with
        | eofRes => exact Nat.zero_le _
        | errRes => exact Nat.zero_le _
        | data n =>
          have hn : n ≤ (chunkLen cfg).toNat := by simpa using hev
          show (if n > 0 ∧ ¬ wOk = true then 0 else n + tarpitLoopWritten rest)
              ≤ (rest.length + 1) * (chunkLen cfg).toNat
          by_cases hw : n > 0 ∧ ¬ wOk = true
          · rw [if_pos hw]
            exact Nat.zero_le _
          · rw [if_neg hw]
            have : (rest.length + 1) * (chunkLen cfg).toNat
                = rest.length * (chunkLen cfg).toNat + (chunkLen cfg).toNat := by ring
            omega

/-- Claim C9: the per-tick chunk size is the truncating integer division
bytes_per_second / 10, so whenever bytes_per_second is not a multiple of 10
the loop writes at most floor(bps/10) bytes per 100 ms tick, a steady rate
of 10 * floor(bps/10) bytes per second, strictly below the configured value;
in particular every bps in 11..19 streams one byte per tick. -/
theorem tarpit_chunk_floor_rate (cfg : TarpitConfig) (b : Nat)
    (events : List TickEvent) (hb : cfg.bytesPerSecond = Int.ofNat b)
    (_hv : tarpitValidate cfg = .ok ()) (hwf : eventsFitChunk cfg events = true)
    (hmod : b % 10 ≠ 0) :
    chunkLen cfg = Int.ofNat (b / 10)
    ∧ tarpitLoopWritten events ≤ events.length * (b / 10)
    ∧ 10 * (b / 10) < b
    ∧ (11 ≤ b → b ≤ 19 → chunkLen cfg = 1) := by
  have hch : chunkLen cfg = Int.ofNat (b / 10) := by
    unfold chunkLen
    rw [hb]
    rfl
  refine ⟨hch, ?_, ?_, ?_⟩
  · have hto : (chunkLen cfg).toNat = b / 10 := by
      rw [hch]
      exact Int.toNat_ofNat _
    have := tarpitLoopWritten_le cfg events hwf
    rw [hto] at this
    exact this
  · omega
  · intro h11 h19
    rw [hch]
    have hd : b / 10 = 1 := by omega
    rw [hd]
    rfl

/-- Witness for C9 at 15 bytes per second: one byte per tick. -/
theorem tarpit_chunk_floor_rate_witness :
    tarpitLoopWritten [TickEvent.tick false (ReadRes.data 1) true]
      ≤ [TickEvent.tick false (ReadRes.data 1) true].length * (15 / 10) :=
  (tarpit_chunk_floor_rate ⟨1000000000, 15, 429⟩ 15
      [TickEvent.tick false (ReadRes.data 1) true] rfl rfl (by decide) (by decide)).2.1
